import Mathlib

/-!
Verification development for the type-detective repository (src/mod.ts).

The development shallowly embeds the core of src/mod.ts:

- the value model traversed by inferType (primitives, arrays, objects);
- the global configuration record and its setter setupTypeDetective;
- the recursive inference engine inferType together with its helpers
  mergeTypes and mergeObjectArrayTypes.

JavaScript specifics are modelled as follows: a JS object is a finite list
of string-keyed fields in insertion order (keys assumed distinct and
non-numeric, as produced by ordinary object literals); a Set is first
occurrence deduplication; the default Array.sort comparator is the
lexicographic order on strings (identical to the UTF-16 code unit order on
the ASCII strings this program produces); the regular expression
/^(.*)\[\]$/ without the s flag matches exactly the strings that end in
the two characters bracket-open bracket-close and whose remainder has no
newline; /^Array<(.+)>$/s matches the strings that start with Array< and
end in > with at least one character in between. Numbers supplied to the
configuration setter are modelled as integers.
-/

namespace TypeDetective

/-- Merge strategy, source type TypeDetectiveMode with values "merge" and "union". -/
inductive Mode where
  | merge
  | union
deriving DecidableEq, Repr

/-- Indentation kind, source type TypeDetectiveIndentType with values "space" and "tab". -/
inductive IndentType where
  | space
  | tab
deriving DecidableEq, Repr

/-- Array rendering style, source type TypeDetectiveArrayStyle. The constructor
named suffix models the source value "postfix" (T followed by square brackets),
generic models "generic" (Array of T). -/
inductive ArrayStyle where
  | generic
  | suffix
deriving DecidableEq, Repr

/-- Configuration record, source type TypeDetectiveConfig. The field
computedIndent models the source field _computedIndent. -/
structure Config where
  mode : Mode
  indent : Int
  indentType : IndentType
  computedIndent : String
  arrayStyle : ArrayStyle
deriving DecidableEq, Repr

/-- Initial value of the module-global typeDetectiveConfig. -/
def typeDetectiveConfigInit : Config :=
  { mode := Mode.merge
    indent := 2
    indentType := IndentType.space
    computedIndent := "  "
    arrayStyle := ArrayStyle.suffix }

/-- Runtime values traversed by inferType: a tagged variant over the kinds the
source dispatches on. Primitive payloads are omitted because inferType only
inspects the result of typeof, never the payload. vother stands for a value of
an unrecognized kind (typeof none of the recognized strings, not an array and
not an object), which the source maps to the token unknown. -/
inductive Value where
  | vnull
  | vundefined
  | vbool
  | vnum
  | vstr
  | vsym
  | vbigint
  | vfun
  | varr (elems : List Value)
  | vobj (fields : List (String × Value))
  | vother

/-- Test for Array.isArray. -/
def isArrayV : Value → Bool
  | .varr _ => true
  | _ => false

/-- Test for a non-null, non-array object (the guard el and typeof el equals
object and not Array.isArray el of the source). -/
def isPlainObj : Value → Bool
  | .vobj _ => true
  | _ => false

mutual

/-- Size of a value, the termination measure of the embedding. -/
def vsize : Value → Nat
  | .varr elems => 1 + lsize elems
  | .vobj fields => 1 + fsize fields
  | _ => 1

/-- Size of a list of values. -/
def lsize : List Value → Nat
  | [] => 0
  | v :: vs => 1 + vsize v + lsize vs

/-- Size of a field list. -/
def fsize : List (String × Value) → Nat
  | [] => 0
  | (_, v) :: rest => 1 + vsize v + fsize rest

end

@[simp]
theorem vsize_varr (elems : List Value) : vsize (.varr elems) = 1 + lsize elems := by
  rw [vsize]

@[simp]
theorem vsize_vobj (fields : List (String × Value)) : vsize (.vobj fields) = 1 + fsize fields := by
  rw [vsize]

@[simp]
theorem lsize_nil : lsize [] = 0 := by
  rw [lsize]

@[simp]
theorem lsize_cons (v : Value) (vs : List Value) : lsize (v :: vs) = 1 + vsize v + lsize vs := by
  rw [lsize]

@[simp]
theorem fsize_nil : fsize [] = 0 := by
  rw [fsize]

@[simp]
theorem fsize_cons (k : String) (v : Value) (rest : List (String × Value)) :
    fsize ((k, v) :: rest) = 1 + vsize v + fsize rest := by
  rw [fsize]

/-- Model of the JS String.prototype.repeat method for a natural count. -/
def strRepeat (s : String) (n : Nat) : String :=
  String.join (List.replicate n s)

/-- Character-level test whether the list s starts with the list pre. -/
def startsWithL : List Char → List Char → Bool
  | _, [] => true
  | [], _ :: _ => false
  | a :: as, b :: bs => a == b && startsWithL as bs

/-- Model of JS String.prototype.startsWith. -/
def jsStartsWith (s t : String) : Bool :=
  startsWithL s.data t.data

/-- Model of JS String.prototype.endsWith. -/
def jsEndsWith (s t : String) : Bool :=
  startsWithL s.data.reverse t.data.reverse

/-- Model of JS String.prototype.includes for a single character. -/
def jsContainsChar (s : String) (c : Char) : Bool :=
  s.data.contains c

/-- Number of characters of a string (JS length on the ASCII strings this
program produces). -/
def jsLength (s : String) : Nat :=
  s.data.length

/-- Model of JS String.prototype.slice dropping the first n characters. -/
def jsDrop (s : String) (n : Nat) : String :=
  String.mk (s.data.drop n)

/-- Model of JS String.prototype.slice dropping the last n characters. -/
def jsDropRight (s : String) (n : Nat) : String :=
  String.mk (s.data.take (s.data.length - n))

/-- Whitespace predicate covering the whitespace characters this program can
produce (space, tab, newline, carriage return). -/
def isWsChar (c : Char) : Bool :=
  c == ' ' || c == '\t' || c == '\n' || c == '\r'

/-- Model of JS String.prototype.trim on the strings this program produces. -/
def jsTrim (s : String) : String :=
  String.mk (((s.data.dropWhile isWsChar).reverse.dropWhile isWsChar).reverse)

/-- Helper for jsSplitBar, carrying the reversed current chunk. -/
def splitBarAux : List Char → List Char → List String
  | [], acc => [String.mk acc.reverse]
  | x :: xs, acc =>
    if x == '|' then String.mk acc.reverse :: splitBarAux xs []
    else splitBarAux xs (x :: acc)

/-- Model of JS String.prototype.split on the one-character separator bar,
the only separator the source splits on. -/
def jsSplitBar (s : String) : List String :=
  splitBarAux s.data []

/-- Lexicographic comparison of character lists by code point, the order the
parameterless JS Array.prototype.sort comparator induces on the ASCII strings
this program produces. -/
def charListLe : List Char → List Char → Bool
  | [], _ => true
  | _ :: _, [] => false
  | a :: as, b :: bs =>
    if a < b then true
    else if b < a then false
    else charListLe as bs

/-- String comparison used to model the parameterless JS Array.prototype.sort. -/
def strLe (a b : String) : Bool :=
  charListLe a.data b.data

/-- Relation form of strLe, for use with the sorting library. -/
def strLeR (a b : String) : Prop :=
  strLe a b = true

instance : DecidableRel strLeR := fun a b => by
  unfold strLeR
  infer_instance

/-- Model of JS Array.prototype.join with a separator. -/
def joinSep (sep : String) : List String → String
  | [] => ""
  | [x] => x
  | x :: xs => x ++ sep ++ joinSep sep xs

/-- Helper for dedupFirst carrying the set of strings already seen. -/
def dedupAux (seen : List String) : List String → List String
  | [] => []
  | x :: xs => if x ∈ seen then dedupAux seen xs else x :: dedupAux (x :: seen) xs

/-- Model of Array.from applied to a Set built from a list: deduplication
keeping the first occurrence of each element, in order. -/
def dedupFirst (xs : List String) : List String :=
  dedupAux [] xs

/-- Model of the parameterless Array.prototype.sort on the ASCII strings this
program produces: sorting by the lexicographic order on strings. Every list the
source sorts has already been deduplicated, so any sorting algorithm yields the
same result. -/
def sortStr (xs : List String) : List String :=
  List.insertionSort strLeR xs

/-- Model of the regular expression match against /^(.*)\[\]$/ (no s flag):
succeeds iff the string ends in the two-character bracket pair and the
remainder contains no newline, returning the remainder. -/
def matchSuffixArray (s : String) : Option String :=
  if jsEndsWith s "[]" && !(jsContainsChar (jsDropRight s 2) '\n') then some (jsDropRight s 2)
  else none

/-- Model of the regular expression match against /^Array<(.+)>$/s: succeeds
iff the string starts with Array<, ends with > and has at least one character
in between, returning those characters. -/
def matchGenericArray (s : String) : Option String :=
  if jsStartsWith s "Array<" && jsEndsWith s ">" && 8 ≤ jsLength s then
    some (jsDropRight (jsDrop s 6) 1)
  else none

/-- Trim, strip one balanced pair of outer parentheses, mirroring the
per-element preprocessing in the flattening loops of the source (lines
126-130, 169-173, 222-226 of src/mod.ts). -/
def stripOuterParens (t : String) : String :=
  let t1 := jsTrim t
  if jsStartsWith t1 "(" && jsEndsWith t1 ")" then jsDropRight (jsDrop t1 1) 1 else t1

/-- Flattening loop shared by three branches of inferType: trim each string,
strip outer parentheses, split on the bar character and trim each part. -/
def flattenUnionParts (ts : List String) : List String :=
  ts.flatMap (fun t => (jsSplitBar (stripOuterParens t)).map jsTrim)

/-- Embedding of mergeTypes from src/mod.ts lines 301-304: deduplicate, sort,
and join with the three-character separator space bar space unless exactly one
distinct string remains. -/
def mergeTypes (types : List String) : String :=
  let unique := sortStr (dedupFirst types)
  match unique with
  | [t] => t
  | _ => joinSep " | " unique

/-- Keys of a plain object value, in insertion order; other values contribute
no keys (the guard at lines 330-334 of src/mod.ts). -/
def objOwnKeys : Value → List String
  | .vobj fields => fields.map Prod.fst
  | _ => []

/-- Embedding of the allKeys set of mergeObjectArrayTypes (lines 328-335):
all keys of all plain-object elements, first occurrence first. -/
def allKeysOf (arr : List Value) : List String :=
  dedupFirst (arr.flatMap objOwnKeys)

mutual

/-- Embedding of inferType from src/mod.ts lines 60-291. The global
configuration the source reads is passed explicitly; the source body never
writes it. -/
def inferType (cfg : Config) (value : Value) (indentLevel : Nat) (mode : Mode) : String :=
  let indent := strRepeat cfg.computedIndent indentLevel
  let nextIndent := strRepeat cfg.computedIndent (indentLevel + 1)
  match value with
  | .vnull => "null"
  | .vundefined => "undefined"
  | .vbool => "boolean"
  | .vnum => "number"
  | .vstr => "string"
  | .vsym => "symbol"
  | .vbigint => "bigint"
  | .vfun => "() => unknown"
  | .vother => "unknown"
  | .vobj fields =>
    let properties := inferFields cfg fields (indentLevel + 1) mode
    if properties.isEmpty then "Record<string | number | symbol, never>"
    else
      "\x7b\n" ++
        String.join (properties.map (fun kv => nextIndent ++ kv.1 ++ ": " ++ kv.2 ++ ";\n")) ++
        indent ++ "\x7d"
  | .varr elems =>
    if elems.isEmpty then
      if cfg.arrayStyle = ArrayStyle.suffix then "unknown[]" else "Array<unknown>"
    else if elems.all isArrayV then
      let subArrayTypes := inferList cfg elems (indentLevel + 1) mode
      match mode with
      | .merge =>
        if cfg.arrayStyle = ArrayStyle.suffix then
          let elementTypes := subArrayTypes.map (fun typeStr =>
            match matchSuffixArray typeStr with
            | some m => m
            | none => typeStr)
          let flatTypes := flattenUnionParts elementTypes
          let dedupedElementTypes := sortStr (dedupFirst flatTypes)
          let mergedElementType := joinSep "|" dedupedElementTypes
          match dedupedElementTypes with
          | [_] => mergedElementType ++ "[][]"
          | _ => "(" ++ mergedElementType ++ ")[][]"
        else
          let elementTypes := subArrayTypes.flatMap (fun typeStr =>
            match matchGenericArray typeStr with
            | some m => (jsSplitBar m).map jsTrim
            | none => [typeStr])
          let dedupedElementTypes := sortStr (dedupFirst elementTypes)
          let mergedElementType := joinSep "|" dedupedElementTypes
          "Array<Array<" ++ mergedElementType ++ ">>"
      | .union =>
        let uniqueTypes := dedupFirst subArrayTypes
        let multiline := uniqueTypes.any (fun t => jsContainsChar t '\n')
        if multiline then
          if cfg.arrayStyle = ArrayStyle.suffix then
            let baseTypes := uniqueTypes.map (fun t =>
              match matchSuffixArray t with
              | some m => m
              | none => t)
            match baseTypes with
            | [t] => t ++ "[][]"
            | _ => "(" ++ joinSep (" |\n" ++ nextIndent) baseTypes ++ ")[][]"
          else
            "Array<\n" ++ nextIndent ++
              joinSep (" |\n" ++ nextIndent) uniqueTypes ++ "\n" ++ indent ++ ">"
        else
          if cfg.arrayStyle = ArrayStyle.suffix then
            let baseTypes := uniqueTypes.map (fun t =>
              match matchSuffixArray t with
              | some m => m
              | none => t)
            let flatTypes := flattenUnionParts baseTypes
            let dedupedBaseTypes := sortStr (dedupFirst flatTypes)
            match dedupedBaseTypes with
            | [t] => t ++ "[][]"
            | _ => "(" ++ joinSep " | " dedupedBaseTypes ++ ")[][]"
          else
            "Array<" ++ joinSep " | " uniqueTypes ++ ">"
    else if elems.all isPlainObj then
      match mode with
      | .merge =>
        if cfg.arrayStyle = ArrayStyle.suffix then
          let merged := mergeObjectArrayTypes cfg elems indentLevel mode
          if jsStartsWith merged "\x7b" then merged ++ "[]" else "(" ++ merged ++ ")[]"
        else
          "Array<" ++ mergeObjectArrayTypes cfg elems indentLevel mode ++ ">"
      | .union =>
        let objectTypes := inferList cfg elems (indentLevel + 1) mode
        let uniqueTypes := dedupFirst objectTypes
        let multiline := uniqueTypes.any (fun t => jsContainsChar t '\n')
        if multiline then
          if cfg.arrayStyle = ArrayStyle.suffix then
            match uniqueTypes with
            | [t] => t ++ "[]"
            | _ => "(" ++ joinSep (" |\n" ++ nextIndent) uniqueTypes ++ ")[]"
          else
            "Array<\n" ++ nextIndent ++
              joinSep (" |\n" ++ nextIndent) uniqueTypes ++ "\n" ++ indent ++ ">"
        else
          if cfg.arrayStyle = ArrayStyle.suffix then
            let baseTypes := uniqueTypes.map (fun t =>
              match matchSuffixArray t with
              | some m => m
              | none => t)
            let flatTypes := flattenUnionParts baseTypes
            let dedupedBaseTypes := sortStr (dedupFirst flatTypes)
            match dedupedBaseTypes with
            | [t] => t ++ "[][]"
            | _ => "(" ++ joinSep " | " dedupedBaseTypes ++ ")[][]"
          else
            "Array<" ++ joinSep " | " uniqueTypes ++ ">"
    else
      let elementTypesArr := dedupFirst (mixedElemTypes cfg elems indentLevel mode)
      if cfg.arrayStyle = ArrayStyle.suffix then
        match elementTypesArr with
        | [t] => t ++ "[]"
        | _ => "(" ++ joinSep " | " elementTypesArr ++ ")[]"
      else
        "Array<" ++ joinSep " | " elementTypesArr ++ ">"

termination_by (vsize value, 0)
decreasing_by
  all_goals simp [Prod.lex_def]

/-- Pointwise inference of a list of values at one indentation level,
modelling the map calls at lines 99-101 and 200-202 of src/mod.ts. -/
def inferList (cfg : Config) (vs : List Value) (indentLevel : Nat) (mode : Mode) : List String :=
  match vs with
  | [] => []
  | v :: rest => inferType cfg v indentLevel mode :: inferList cfg rest indentLevel mode

termination_by (lsize vs, 0)
decreasing_by
  all_goals simp [Prod.lex_def]
  all_goals omega

/-- Property table of the object branch of inferType (lines 266-277):
one inferred type per field, in insertion order. -/
def inferFields (cfg : Config) (fields : List (String × Value)) (indentLevel : Nat)
    (mode : Mode) : List (String × String) :=
  match fields with
  | [] => []
  | (k, v) :: rest =>
    (k, inferType cfg v indentLevel mode) :: inferFields cfg rest indentLevel mode

termination_by (fsize fields, 0)
decreasing_by
  all_goals simp [Prod.lex_def]
  all_goals omega

/-- Element types collected by the mixed-elements loop of inferType
(lines 242-255), before Set deduplication. -/
def mixedElemTypes (cfg : Config) (vs : List Value) (indentLevel : Nat) (mode : Mode) :
    List String :=
  match vs with
  | [] => []
  | el :: rest =>
    let t :=
      match el with
      | .varr es => inferType cfg (.varr es) (indentLevel + 1) mode
      | .vobj fs =>
        match mode with
        | .union => inferType cfg (.vobj fs) (indentLevel + 1) mode
        | .merge => mergeObjectArrayTypes cfg [.vobj fs] (indentLevel + 1) mode
      | other => inferType cfg other (indentLevel + 1) mode
    t :: mixedElemTypes cfg rest indentLevel mode

termination_by (lsize vs, 3)
decreasing_by
  all_goals simp [Prod.lex_def]
  all_goals omega

/-- Embedding of mergeObjectArrayTypes from src/mod.ts lines 316-381. -/
def mergeObjectArrayTypes (cfg : Config) (arr : List Value) (indentLevel : Nat) (mode : Mode) :
    String :=
  let indent := strRepeat cfg.computedIndent indentLevel
  let nextIndent := strRepeat cfg.computedIndent (indentLevel + 1)
  if arr.isEmpty then "\x7b [key: string]: unknown \x7d"
  else
    let keys := sortStr (allKeysOf arr)
    if keys.isEmpty then "Record<string | number | symbol, never>"
    else
      "\x7b\n" ++
        String.join (keys.map (fun key =>
          let prop := keyTypesCount cfg arr key indentLevel mode
          let isOptional := prop.2 < arr.length
          nextIndent ++ key ++ (if isOptional then "?" else "") ++ ": " ++
            mergeTypes prop.1 ++ ";\n")) ++
        indent ++ "\x7d"

termination_by (lsize arr, 1)
decreasing_by
  all_goals simp [Prod.lex_def]

/-- Per-key accumulation loop of mergeObjectArrayTypes (lines 338-367): the
contributed type strings of one key across the input objects, in input order,
paired with the presence counter. -/
def keyTypesCount (cfg : Config) (arr : List Value) (key : String) (indentLevel : Nat)
    (mode : Mode) : List String × Nat :=
  match arr with
  | [] => ([], 0)
  | obj :: rest =>
    let tail := keyTypesCount cfg rest key indentLevel mode
    match obj with
    | .vobj fields =>
      match fieldContrib cfg fields key indentLevel mode with
      | some t => (t :: tail.1, tail.2 + 1)
      | none => tail
    | _ => tail

termination_by (lsize arr, 0)
decreasing_by
  all_goals simp [Prod.lex_def]
  all_goals omega

/-- Own-property lookup of one key in an object (the hasOwnProperty guard and
indexing at lines 341-345), returning the contributed type of its value. -/
def fieldContrib (cfg : Config) (fields : List (String × Value)) (key : String)
    (indentLevel : Nat) (mode : Mode) : Option String :=
  match fields with
  | [] => none
  | (k, v) :: rest =>
    if k = key then some (contribOf cfg v indentLevel mode)
    else fieldContrib cfg rest key indentLevel mode

termination_by (fsize fields, 3)
decreasing_by
  all_goals simp [Prod.lex_def]
  all_goals omega

/-- Contributed type of one field value inside mergeObjectArrayTypes
(lines 345-363): a non-empty array of plain objects is merged and wrapped in
the generic style regardless of the configured array style; a plain object is
merged as a singleton list; anything else is inferred directly. -/
def contribOf (cfg : Config) (v : Value) (indentLevel : Nat) (mode : Mode) : String :=
  match v with
  | .varr elems =>
    if !elems.isEmpty && elems.all isPlainObj then
      "Array<" ++ mergeObjectArrayTypes cfg elems (indentLevel + 1) mode ++ ">"
    else inferType cfg (.varr elems) (indentLevel + 1) mode
  | .vobj fields => mergeObjectArrayTypes cfg [.vobj fields] (indentLevel + 1) mode
  | w => inferType cfg w (indentLevel + 1) mode
termination_by (vsize v + 1, 2)
decreasing_by
  all_goals simp [Prod.lex_def]
  all_goals omega

end

/-- Own-key test of an object value for one key (the hasOwnProperty guard). -/
def hasKeyV : Value → String → Bool
  | .vobj fields, key => fields.any (fun p => p.1 == key)
  | _, _ => false

/-- Contribution of one array element to one key of the merged object type:
some contributed type if the element is a plain object owning the key, none
otherwise. -/
def objContrib (cfg : Config) (key : String) (indentLevel : Nat) (mode : Mode) :
    Value → Option String
  | .vobj fields => fieldContrib cfg fields key indentLevel mode
  | _ => none

/-- Line rendered for one key by mergeObjectArrayTypes (lines 373-378): the
optional marker appears exactly when the presence counter is smaller than the
number of input values. -/
def mergedKeyLine (cfg : Config) (arr : List Value) (indentLevel : Nat) (mode : Mode)
    (key : String) : String :=
  let prop := keyTypesCount cfg arr key indentLevel mode
  strRepeat cfg.computedIndent (indentLevel + 1) ++ key ++
    (if prop.2 < arr.length then "?" else "") ++ ": " ++ mergeTypes prop.1 ++ ";\n"

/-- Options record accepted by setupTypeDetective: each recognized field is
optional; the enumeration-valued fields carry arbitrary strings so that the
validation of the source (comparison against the accepted literals) is
modelled faithfully; indent carries an integer when present (the typeof
number guard of the source). -/
structure SetupOptions where
  mode : Option String := none
  indent : Option Int := none
  indentType : Option String := none
  arrayStyle : Option String := none

/-- First statement of setupTypeDetective (lines 413-415): the indent option
is applied iff it is a positive number. -/
def applyIndent (cfg : Config) (options : SetupOptions) : Config :=
  match options.indent with
  | some n => if 0 < n then { cfg with indent := n } else cfg
  | none => cfg

/-- Second statement of setupTypeDetective (lines 416-418): the indentType
option is applied iff it is the string space or the string tab. -/
def applyIndentType (cfg : Config) (options : SetupOptions) : Config :=
  if options.indentType = some "space" then { cfg with indentType := IndentType.space }
  else if options.indentType = some "tab" then { cfg with indentType := IndentType.tab }
  else cfg

/-- Third statement of setupTypeDetective (lines 419-421): the arrayStyle
option is applied iff it is the string generic or the string postfix. -/
def applyArrayStyle (cfg : Config) (options : SetupOptions) : Config :=
  if options.arrayStyle = some "generic" then { cfg with arrayStyle := ArrayStyle.generic }
  else if options.arrayStyle = some "postfix" then { cfg with arrayStyle := ArrayStyle.suffix }
  else cfg

/-- Fourth statement of setupTypeDetective (lines 422-424): the mode option is
applied iff it is the string merge or the string union. -/
def applyMode (cfg : Config) (options : SetupOptions) : Config :=
  if options.mode = some "merge" then { cfg with mode := Mode.merge }
  else if options.mode = some "union" then { cfg with mode := Mode.union }
  else cfg

/-- Final statement of setupTypeDetective (lines 425-434): the computed indent
string is rebuilt from the stored indent and indentType. -/
def recomputeIndent (cfg : Config) : Config :=
  if cfg.indentType = IndentType.tab then
    { cfg with computedIndent := strRepeat "\t" cfg.indent.toNat }
  else
    { cfg with computedIndent := strRepeat " " cfg.indent.toNat }

/-- Embedding of setupTypeDetective from src/mod.ts lines 410-435, as a
function from the previous global configuration and the options to the new
configuration: the four validated field updates in source order, then the
recomputation of the indent string. -/
def setupTypeDetective (cfg : Config) (options : SetupOptions) : Config :=
  recomputeIndent (applyMode (applyArrayStyle (applyIndentType (applyIndent cfg options)
    options) options) options)

/-- Embedding of getTypeDetectiveConfig: the current configuration is returned
as is. -/
def getTypeDetectiveConfig (cfg : Config) : Config :=
  cfg

/-- State-threaded view of one inferType call. The source bodies of inferType,
mergeTypes and mergeObjectArrayTypes contain no assignment to the global
typeDetectiveConfig (only setupTypeDetective assigns it) and no mutation of
the input value, so a call maps the pre-call configuration to itself next to
the produced text. -/
def inferTypeCall (cfg : Config) (value : Value) (indentLevel : Nat) (mode : Mode) :
    String × Config :=
  (inferType cfg value indentLevel mode, cfg)

/-- Modelled from the spec words, for comparison with mergeTypes: the
alphabetically sorted, deduplicated union of type texts, joined with the
three-character separator space bar space. -/
def specSortedDedupUnion (ts : List String) : String :=
  joinSep " | " (sortStr ts.dedup)

/-! Auxiliary lemmas about the string and list helpers. -/

theorem append_ne_empty_right (a b : String) (h : b ≠ "") : a ++ b ≠ "" := by
  intro hc
  apply h
  have hd : a.data ++ b.data = ([] : List Char) := by
    have h2 := congrArg String.data hc
    simpa using h2
  exact String.ext (List.append_eq_nil.mp hd).2

theorem mem_dedupAux (x : String) : ∀ (xs seen : List String),
    (x ∈ dedupAux seen xs ↔ (x ∈ xs ∧ x ∉ seen))
  | [], seen => by simp [dedupAux]
  | y :: ys, seen => by
    simp only [dedupAux]
    by_cases h : y ∈ seen
    · rw [if_pos h, mem_dedupAux x ys seen]
      constructor
      · exact fun hx => ⟨List.mem_cons_of_mem _ hx.1, hx.2⟩
      · rintro ⟨h1, h2⟩
        rcases List.mem_cons.mp h1 with rfl | h3
        · exact absurd h h2
        · exact ⟨h3, h2⟩
    · rw [if_neg h]
      simp only [List.mem_cons, mem_dedupAux x ys (y :: seen)]
      constructor
      · rintro (rfl | ⟨h1, h2⟩)
        · exact ⟨Or.inl rfl, h⟩
        · exact ⟨Or.inr h1, fun hs => h2 (Or.inr hs)⟩
      · rintro ⟨rfl | h1, h2⟩
        · exact Or.inl rfl
        · by_cases hxy : x = y
          · exact Or.inl hxy
          · exact Or.inr ⟨h1, fun hs => by
              rcases hs with h4 | h4
              · exact hxy h4
              · exact h2 h4⟩

theorem nodup_dedupAux : ∀ (xs seen : List String), (dedupAux seen xs).Nodup
  | [], _ => by simp [dedupAux]
  | y :: ys, seen => by
    simp only [dedupAux]
    by_cases h : y ∈ seen
    · rw [if_pos h]
      exact nodup_dedupAux ys seen
    · rw [if_neg h, List.nodup_cons]
      refine ⟨fun hy => ?_, nodup_dedupAux ys (y :: seen)⟩
      exact ((mem_dedupAux y ys (y :: seen)).mp hy).2 (List.mem_cons_self y seen)

theorem mem_dedupFirst {x : String} {xs : List String} : x ∈ dedupFirst xs ↔ x ∈ xs := by
  unfold dedupFirst
  rw [mem_dedupAux]
  simp

theorem nodup_dedupFirst (xs : List String) : (dedupFirst xs).Nodup :=
  nodup_dedupAux xs []

theorem charListLe_cons_iff {a b : Char} {as bs : List Char} :
    charListLe (a :: as) (b :: bs) = true ↔ (a < b ∨ (a = b ∧ charListLe as bs = true)) := by
  simp only [charListLe]
  rcases lt_trichotomy a b with h | h | h
  · simp [h]
  · subst h
    simp [lt_irrefl]
  · simp [h, lt_asymm h, (ne_of_gt h : a ≠ b)]

theorem charListLe_total : ∀ (as bs : List Char), charListLe as bs = true ∨ charListLe bs as = true
  | [], _ => Or.inl (by simp [charListLe])
  | _ :: _, [] => Or.inr (by simp [charListLe])
  | a :: as, b :: bs => by
    rcases lt_trichotomy a b with h | rfl | h
    · exact Or.inl (charListLe_cons_iff.mpr (Or.inl h))
    · rcases charListLe_total as bs with h2 | h2
      · exact Or.inl (charListLe_cons_iff.mpr (Or.inr ⟨rfl, h2⟩))
      · exact Or.inr (charListLe_cons_iff.mpr (Or.inr ⟨rfl, h2⟩))
    · exact Or.inr (charListLe_cons_iff.mpr (Or.inl h))

theorem charListLe_trans : ∀ (as bs cs : List Char),
    charListLe as bs = true → charListLe bs cs = true → charListLe as cs = true
  | [], _, _, _, _ => by simp [charListLe]
  | _ :: _, [], _, h1, _ => by simp [charListLe] at h1
  | _ :: _, _ :: _, [], _, h2 => by simp [charListLe] at h2
  | a :: as, b :: bs, c :: cs, h1, h2 => by
    rw [charListLe_cons_iff] at h1 h2 ⊢
    rcases h1 with h1 | ⟨rfl, h1⟩
    · rcases h2 with h2 | ⟨rfl, h2⟩
      · exact Or.inl (lt_trans h1 h2)
      · exact Or.inl h1
    · rcases h2 with h2 | ⟨rfl, h2⟩
      · exact Or.inl h2
      · exact Or.inr ⟨rfl, charListLe_trans as bs cs h1 h2⟩

theorem charListLe_antisymm : ∀ (as bs : List Char),
    charListLe as bs = true → charListLe bs as = true → as = bs
  | [], [], _, _ => rfl
  | [], _ :: _, _, h2 => by simp [charListLe] at h2
  | _ :: _, [], h1, _ => by simp [charListLe] at h1
  | a :: as, b :: bs, h1, h2 => by
    rw [charListLe_cons_iff] at h1 h2
    rcases h1 with h1 | ⟨rfl, h1⟩
    · rcases h2 with h2 | ⟨h2e, h2⟩
      · exact absurd h2 (lt_asymm h1)
      · exact absurd h1 (h2e ▸ lt_irrefl a)
    · rcases h2 with h2 | ⟨h2e, h2⟩
      · exact absurd h2 (lt_irrefl a)
      · rw [charListLe_antisymm as bs h1 h2]

instance : IsTotal String strLeR :=
  ⟨fun a b => charListLe_total a.data b.data⟩

instance : IsTrans String strLeR :=
  ⟨fun a b c => charListLe_trans a.data b.data c.data⟩

instance : IsAntisymm String strLeR :=
  ⟨fun a b h1 h2 => String.ext (charListLe_antisymm a.data b.data h1 h2)⟩

theorem sortStr_perm (l : List String) : List.Perm (sortStr l) l :=
  List.perm_insertionSort strLeR l

theorem sortStr_sorted (l : List String) : List.Sorted strLeR (sortStr l) :=
  List.sorted_insertionSort strLeR l

theorem sortStr_eq_of_mem_iff {l1 l2 : List String} (h1 : l1.Nodup) (h2 : l2.Nodup)
    (h : ∀ a, a ∈ l1 ↔ a ∈ l2) : sortStr l1 = sortStr l2 := by
  have hp : List.Perm l1 l2 := (List.perm_ext_iff_of_nodup h1 h2).mpr h
  exact List.eq_of_perm_of_sorted ((sortStr_perm l1).trans (hp.trans (sortStr_perm l2).symm))
    (sortStr_sorted l1) (sortStr_sorted l2)

theorem mergeTypes_eq_joinSep (ts : List String) :
    mergeTypes ts = joinSep " | " (sortStr (dedupFirst ts)) := by
  simp only [mergeTypes]
  cases h : sortStr (dedupFirst ts) with
  | nil => rfl
  | cons a t =>
    cases t with
    | nil => rfl
    | cons b l => rfl

theorem mergeTypes_congr {l1 l2 : List String} (h : ∀ a, a ∈ l1 ↔ a ∈ l2) :
    mergeTypes l1 = mergeTypes l2 := by
  rw [mergeTypes_eq_joinSep, mergeTypes_eq_joinSep,
    sortStr_eq_of_mem_iff (nodup_dedupFirst l1) (nodup_dedupFirst l2)
      (fun a => by rw [mem_dedupFirst, mem_dedupFirst]; exact h a)]

theorem fieldContrib_isSome (cfg : Config) (key : String) (lvl : Nat) (mode : Mode) :
    ∀ fields : List (String × Value),
      (fieldContrib cfg fields key lvl mode).isSome = fields.any (fun p => p.1 == key)
  | [] => by simp [fieldContrib]
  | (k, v) :: rest => by
    by_cases h : k = key
    · simp [fieldContrib, h]
    · simp [fieldContrib, h, fieldContrib_isSome cfg key lvl mode rest]

theorem objContrib_isSome (cfg : Config) (key : String) (lvl : Nat) (mode : Mode) (o : Value) :
    (objContrib cfg key lvl mode o).isSome = hasKeyV o key := by
  cases o <;> simp [objContrib, hasKeyV, fieldContrib_isSome]

theorem mem_objOwnKeys {key : String} (o : Value) :
    key ∈ objOwnKeys o ↔ hasKeyV o key = true := by
  cases o <;> simp [objOwnKeys, hasKeyV]

theorem mem_allKeysOf {key : String} {arr : List Value} :
    key ∈ allKeysOf arr ↔ ∃ o ∈ arr, hasKeyV o key = true := by
  unfold allKeysOf
  rw [mem_dedupFirst, List.mem_flatMap]
  constructor
  · rintro ⟨o, ho, hk⟩
    exact ⟨o, ho, (mem_objOwnKeys o).mp hk⟩
  · rintro ⟨o, ho, hk⟩
    exact ⟨o, ho, (mem_objOwnKeys o).mpr hk⟩

theorem keyTypesCount_fst (cfg : Config) (key : String) (lvl : Nat) (mode : Mode) :
    ∀ arr : List Value,
      (keyTypesCount cfg arr key lvl mode).1 = arr.filterMap (objContrib cfg key lvl mode) := by
  intro arr
  induction arr with
  | nil => simp [keyTypesCount]
  | cons obj rest ih =>
    cases obj
    case vobj fields =>
      cases hfc : fieldContrib cfg fields key lvl mode with
      | some t => simp [keyTypesCount, objContrib, List.filterMap_cons, hfc, ih]
      | none => simp [keyTypesCount, objContrib, List.filterMap_cons, hfc, ih]
    all_goals simp [keyTypesCount, objContrib, List.filterMap_cons, ih]

theorem keyTypesCount_snd (cfg : Config) (key : String) (lvl : Nat) (mode : Mode) :
    ∀ arr : List Value,
      (keyTypesCount cfg arr key lvl mode).2 = arr.countP (fun o => hasKeyV o key) := by
  intro arr
  induction arr with
  | nil => simp [keyTypesCount]
  | cons obj rest ih =>
    cases obj
    case vobj fields =>
      cases hfc : fieldContrib cfg fields key lvl mode with
      | some t =>
        have h2 : fields.any (fun p => p.1 == key) = true := by
          rw [← fieldContrib_isSome cfg key lvl mode fields, hfc]
          rfl
        simp [keyTypesCount, List.countP_cons, hfc, ih, hasKeyV, h2]
      | none =>
        have h2 : fields.any (fun p => p.1 == key) = false := by
          rw [← fieldContrib_isSome cfg key lvl mode fields, hfc]
          rfl
        simp [keyTypesCount, List.countP_cons, hfc, ih, hasKeyV, h2]
    all_goals simp [keyTypesCount, hasKeyV, List.countP_cons, ih]

theorem keyTypesCount_lt_iff (cfg : Config) (key : String) (lvl : Nat) (mode : Mode)
    (arr : List Value) :
    ((keyTypesCount cfg arr key lvl mode).2 < arr.length ↔ ∃ o ∈ arr, hasKeyV o key = false) := by
  rw [keyTypesCount_snd]
  have hle : arr.countP (fun o => hasKeyV o key) ≤ arr.length := List.countP_le_length _
  constructor
  · intro h
    by_contra hc
    push_neg at hc
    have hall : ∀ o ∈ arr, hasKeyV o key = true := by
      intro o ho
      rcases Bool.eq_false_or_eq_true (hasKeyV o key) with ht | hf
      · exact ht
      · exact absurd hf (hc o ho)
    have heq : arr.countP (fun o => hasKeyV o key) = arr.length :=
      List.countP_eq_length.mpr hall
    omega
  · rintro ⟨o, ho, hko⟩
    have hne : arr.countP (fun o => hasKeyV o key) ≠ arr.length := by
      intro he
      have := List.countP_eq_length.mp he o ho
      rw [hko] at this
      exact Bool.false_ne_true this
    omega

theorem mergeObjectArrayTypes_eq (cfg : Config) (arr : List Value) (lvl : Nat) (mode : Mode)
    (h1 : arr ≠ []) :
    mergeObjectArrayTypes cfg arr lvl mode =
      (if (sortStr (allKeysOf arr)).isEmpty then "Record<string | number | symbol, never>"
       else
         "\x7b\n" ++
           String.join ((sortStr (allKeysOf arr)).map (mergedKeyLine cfg arr lvl mode)) ++
           strRepeat cfg.computedIndent lvl ++ "\x7d") := by
  simp only [mergeObjectArrayTypes]
  rw [if_neg (by simpa using h1)]
  rfl

theorem mergeObjectArrayTypes_perm (cfg : Config) (lvl : Nat) (mode : Mode)
    {arr1 arr2 : List Value} (p : List.Perm arr1 arr2) :
    mergeObjectArrayTypes cfg arr1 lvl mode = mergeObjectArrayTypes cfg arr2 lvl mode := by
  by_cases h : arr1 = []
  · subst h
    have h2 : arr2 = [] := p.symm.eq_nil
    subst h2
    rfl
  · have h2 : arr2 ≠ [] := by
      intro he
      subst he
      exact h p.eq_nil
    have hkeys : sortStr (allKeysOf arr1) = sortStr (allKeysOf arr2) := by
      apply sortStr_eq_of_mem_iff (nodup_dedupFirst _) (nodup_dedupFirst _)
      intro a
      rw [mem_dedupFirst, mem_dedupFirst, List.mem_flatMap, List.mem_flatMap]
      constructor
      · rintro ⟨o, ho, hk⟩
        exact ⟨o, p.subset ho, hk⟩
      · rintro ⟨o, ho, hk⟩
        exact ⟨o, p.symm.subset ho, hk⟩
    have hline : mergedKeyLine cfg arr1 lvl mode = mergedKeyLine cfg arr2 lvl mode := by
      funext key
      have hcnt : (keyTypesCount cfg arr1 key lvl mode).2 =
          (keyTypesCount cfg arr2 key lvl mode).2 := by
        rw [keyTypesCount_snd, keyTypesCount_snd]
        exact p.countP_eq _
      have hlen : arr1.length = arr2.length := p.length_eq
      have hmt : mergeTypes (keyTypesCount cfg arr1 key lvl mode).1 =
          mergeTypes (keyTypesCount cfg arr2 key lvl mode).1 := by
        rw [keyTypesCount_fst, keyTypesCount_fst]
        exact mergeTypes_congr (fun a => (p.filterMap _).mem_iff)
      simp only [mergedKeyLine]
      rw [hcnt, hlen, hmt]
    rw [mergeObjectArrayTypes_eq cfg arr1 lvl mode h, mergeObjectArrayTypes_eq cfg arr2 lvl mode h2,
      hkeys, hline]

theorem mergeTypes_eq_spec (ts : List String) : mergeTypes ts = specSortedDedupUnion ts := by
  rw [mergeTypes_eq_joinSep]
  unfold specSortedDedupUnion
  rw [sortStr_eq_of_mem_iff (nodup_dedupFirst ts) (List.nodup_dedup ts)
    (fun a => by rw [mem_dedupFirst, List.mem_dedup])]

/-! Claim theorems. -/

/-- C1: the style round-trip claim fails on the code. On the input modelling
the JS value with one array containing one array containing one object with a
single numeric field, in merge mode at depth 0, the postfix style leaves a
spurious bracket-pair suffix on the element type (the no-s-flag regular
expression never matches the multi-line object type) and stacks three array
suffixes, while the generic style extracts the bare object type; the multisets
of element types inside the array wrappers therefore differ between the two
styles. -/
theorem c1_style_toggle_mismatch_eval :
    inferType typeDetectiveConfigInit (.varr [.varr [.vobj [("a", .vnum)]]]) 0 .merge =
      "\x7b\n    a: number;\n  \x7d[][][]" ∧
    inferType { typeDetectiveConfigInit with arrayStyle := ArrayStyle.generic }
        (.varr [.varr [.vobj [("a", .vnum)]]]) 0 .merge =
      "Array<Array<\x7b\n    a: number;\n  \x7d>>" := by
  constructor
  · simp [inferType, inferList, inferFields, mixedElemTypes, mergeObjectArrayTypes,
      keyTypesCount, fieldContrib, contribOf]
    decide
  · simp [inferType, inferList, inferFields, mixedElemTypes, mergeObjectArrayTypes,
      keyTypesCount, fieldContrib, contribOf]
    decide

/-- C2: in merge mode, a key is rendered with the optional marker iff its
presence count is strictly below the number of input values: membership in the
rendered key set is equivalent to presence in at least one input, the presence
counter of the accumulation loop is below the input count exactly when the key
is absent from at least one input, and the rendered line carries the marker
exactly under that counter condition. -/
theorem c2_merge_optional_iff (cfg : Config) (arr : List Value) (key : String) (lvl : Nat)
    (mode : Mode) :
    (key ∈ allKeysOf arr ↔ ∃ o ∈ arr, hasKeyV o key = true) ∧
    ((keyTypesCount cfg arr key lvl mode).2 < arr.length ↔
      ∃ o ∈ arr, hasKeyV o key = false) ∧
    mergedKeyLine cfg arr lvl mode key =
      strRepeat cfg.computedIndent (lvl + 1) ++ key ++
        (if (keyTypesCount cfg arr key lvl mode).2 < arr.length then "?" else "") ++ ": " ++
        mergeTypes (keyTypesCount cfg arr key lvl mode).1 ++ ";\n" :=
  ⟨mem_allKeysOf, keyTypesCount_lt_iff cfg key lvl mode arr, rfl⟩

/-- C3: in merge mode, mergeTypes equals the alphabetically sorted,
deduplicated union of its inputs joined with the space bar space separator
(collapsing to the lone text when one remains), the line rendered for a key
carries exactly that union of the key's per-object contributed type texts, and
permuting the input objects leaves the whole merged result text unchanged. -/
theorem c3_merge_sorted_union_commutative :
    (∀ ts : List String, mergeTypes ts = specSortedDedupUnion ts) ∧
    (∀ (cfg : Config) (arr : List Value) (lvl : Nat) (mode : Mode) (key : String),
        mergedKeyLine cfg arr lvl mode key =
          strRepeat cfg.computedIndent (lvl + 1) ++ key ++
            (if (keyTypesCount cfg arr key lvl mode).2 < arr.length then "?" else "") ++ ": " ++
            specSortedDedupUnion (keyTypesCount cfg arr key lvl mode).1 ++ ";\n") ∧
    (∀ (cfg : Config) (lvl : Nat) (mode : Mode) (arr1 arr2 : List Value),
        List.Perm arr1 arr2 →
        mergeObjectArrayTypes cfg arr1 lvl mode = mergeObjectArrayTypes cfg arr2 lvl mode) :=
  ⟨mergeTypes_eq_spec,
    fun cfg arr lvl mode key => by
      simp only [mergedKeyLine]
      rw [mergeTypes_eq_spec],
    fun cfg lvl mode _ _ p => mergeObjectArrayTypes_perm cfg lvl mode p⟩

/-- C3 witness: the permutation clause applied to two concrete single-field
objects swapped in order. -/
theorem c3_merge_sorted_union_commutative_witness :
    mergeObjectArrayTypes typeDetectiveConfigInit
        [.vobj [("a", .vnum)], .vobj [("b", .vstr)]] 0 .merge =
      mergeObjectArrayTypes typeDetectiveConfigInit
        [.vobj [("b", .vstr)], .vobj [("a", .vnum)]] 0 .merge :=
  c3_merge_sorted_union_commutative.2.2 typeDetectiveConfigInit 0 .merge _ _
    (List.Perm.swap _ _ _)

/-- C4 counterexample: the second scenario of the claim fails on the code: the
merge-mode array-of-arrays branch joins the sorted deduplicated element types
with a bare bar, not with the three-character space bar space separator. -/
theorem c4_counterexample_spacing :
    inferType typeDetectiveConfigInit (.varr [.varr [.vnum, .vstr], .varr [.vbool, .vnum]])
        0 .merge ≠ "(boolean | number | string)[][]" := by
  simp [inferType, inferList, inferFields, mixedElemTypes, mergeObjectArrayTypes,
    keyTypesCount, fieldContrib, contribOf]
  decide

/-- C4 amended: the first scenario holds as claimed, and in the second the
element types are deduplicated across both sub-arrays and sorted
alphabetically but joined with a bare bar without surrounding spaces. -/
theorem c4_array_of_arrays_eval :
    inferType typeDetectiveConfigInit (.varr [.varr [.vnum, .vnum], .varr [.vnum, .vnum]])
        0 .merge = "number[][]" ∧
    inferType typeDetectiveConfigInit (.varr [.varr [.vnum, .vstr], .varr [.vbool, .vnum]])
        0 .merge = "(boolean|number|string)[][]" := by
  constructor
  · simp [inferType, inferList, inferFields, mixedElemTypes, mergeObjectArrayTypes,
      keyTypesCount, fieldContrib, contribOf]
    decide
  · simp [inferType, inferList, inferFields, mixedElemTypes, mergeObjectArrayTypes,
      keyTypesCount, fieldContrib, contribOf]
    decide

/-- C5: the union-mode singleton collapse claim fails on the code for an array
containing one empty object: all element types are single-line, the copied
array-of-arrays rendering splits the lone Record token at its inner bars and
returns a parenthesized union with a doubled array suffix instead of the bare
single-wrapped array. -/
theorem c5_union_singleton_empty_object_eval :
    inferType typeDetectiveConfigInit (.varr [.vobj []]) 0 .union =
      "(Record<string | number | symbol, never>)[][]" := by
  simp [inferType, inferList, inferFields, mixedElemTypes, mergeObjectArrayTypes,
    keyTypesCount, fieldContrib, contribOf]
  decide

/-- C6: a single non-array, non-null, non-function object is rendered with one
key colon type semicolon line per field in the input's own field order, not
sorted: the object branch emits the inferFields table verbatim, inferFields
preserves the key sequence of its input, and the concrete three-field scenario
renders its keys in input order id, name, active. -/
theorem c6_single_object_key_order :
    (∀ (cfg : Config) (fields : List (String × Value)) (lvl : Nat) (mode : Mode),
        fields ≠ [] →
        inferType cfg (.vobj fields) lvl mode =
          "\x7b\n" ++
            String.join ((inferFields cfg fields (lvl + 1) mode).map
              (fun kv => strRepeat cfg.computedIndent (lvl + 1) ++ kv.1 ++ ": " ++ kv.2 ++ ";\n")) ++
            strRepeat cfg.computedIndent lvl ++ "\x7d") ∧
    (∀ (cfg : Config) (fields : List (String × Value)) (lvl : Nat) (mode : Mode),
        (inferFields cfg fields lvl mode).map Prod.fst = fields.map Prod.fst) ∧
    inferType typeDetectiveConfigInit
        (.vobj [("id", .vnum), ("name", .vstr), ("active", .vbool)]) 0 .merge =
      "\x7b\n  id: number;\n  name: string;\n  active: boolean;\n\x7d" := by
  refine ⟨?_, ?_, ?_⟩
  · intro cfg fields lvl mode hne
    obtain ⟨p, rest, rfl⟩ : ∃ p rest, fields = p :: rest := by
      cases fields with
      | nil => exact absurd rfl hne
      | cons p rest => exact ⟨p, rest, rfl⟩
    have hcons : inferFields cfg (p :: rest) (lvl + 1) mode =
        (p.1, inferType cfg p.2 (lvl + 1) mode) :: inferFields cfg rest (lvl + 1) mode := by
      cases p
      rw [inferFields]
    simp only [inferType]
    rw [if_neg (by simp [hcons])]
  · intro cfg fields lvl mode
    induction fields with
    | nil => simp [inferFields]
    | cons p rest ih =>
      cases p
      rw [inferFields]
      simp [ih]
  · simp [inferType, inferList, inferFields, mixedElemTypes, mergeObjectArrayTypes,
      keyTypesCount, fieldContrib, contribOf]
    decide

/-- C6 witness: the general rendering clause applied to a concrete one-field
object at depth 0. -/
theorem c6_single_object_key_order_witness :
    inferType typeDetectiveConfigInit (.vobj [("a", .vnum)]) 0 .merge =
      "\x7b\n" ++
        String.join ((inferFields typeDetectiveConfigInit [("a", .vnum)] (0 + 1) .merge).map
          (fun kv => strRepeat typeDetectiveConfigInit.computedIndent (0 + 1) ++ kv.1 ++ ": " ++
            kv.2 ++ ";\n")) ++
        strRepeat typeDetectiveConfigInit.computedIndent 0 ++ "\x7d" :=
  c6_single_object_key_order.1 typeDetectiveConfigInit [("a", .vnum)] 0 .merge (by simp)

/-! Projection lemmas for the configuration setter stages. -/

theorem applyIndent_indent (cfg : Config) (o : SetupOptions) :
    (applyIndent cfg o).indent =
      (match o.indent with
       | some n => if 0 < n then n else cfg.indent
       | none => cfg.indent) := by
  cases h : o.indent <;> simp only [applyIndent, h] <;>
    first
      | rfl
      | (split_ifs <;> rfl)

theorem applyIndent_indentType (cfg : Config) (o : SetupOptions) :
    (applyIndent cfg o).indentType = cfg.indentType := by
  cases h : o.indent <;> simp only [applyIndent, h] <;>
    first
      | rfl
      | (split_ifs <;> rfl)

theorem applyIndent_arrayStyle (cfg : Config) (o : SetupOptions) :
    (applyIndent cfg o).arrayStyle = cfg.arrayStyle := by
  cases h : o.indent <;> simp only [applyIndent, h] <;>
    first
      | rfl
      | (split_ifs <;> rfl)

theorem applyIndent_mode (cfg : Config) (o : SetupOptions) :
    (applyIndent cfg o).mode = cfg.mode := by
  cases h : o.indent <;> simp only [applyIndent, h] <;>
    first
      | rfl
      | (split_ifs <;> rfl)

theorem applyIndentType_indentType (cfg : Config) (o : SetupOptions) :
    (applyIndentType cfg o).indentType =
      (if o.indentType = some "space" then IndentType.space
       else if o.indentType = some "tab" then IndentType.tab
       else cfg.indentType) := by
  unfold applyIndentType
  split_ifs <;> rfl

theorem applyIndentType_indent (cfg : Config) (o : SetupOptions) :
    (applyIndentType cfg o).indent = cfg.indent := by
  unfold applyIndentType
  split_ifs <;> rfl

theorem applyIndentType_arrayStyle (cfg : Config) (o : SetupOptions) :
    (applyIndentType cfg o).arrayStyle = cfg.arrayStyle := by
  unfold applyIndentType
  split_ifs <;> rfl

theorem applyIndentType_mode (cfg : Config) (o : SetupOptions) :
    (applyIndentType cfg o).mode = cfg.mode := by
  unfold applyIndentType
  split_ifs <;> rfl

theorem applyArrayStyle_arrayStyle (cfg : Config) (o : SetupOptions) :
    (applyArrayStyle cfg o).arrayStyle =
      (if o.arrayStyle = some "generic" then ArrayStyle.generic
       else if o.arrayStyle = some "postfix" then ArrayStyle.suffix
       else cfg.arrayStyle) := by
  unfold applyArrayStyle
  split_ifs <;> rfl

theorem applyArrayStyle_indent (cfg : Config) (o : SetupOptions) :
    (applyArrayStyle cfg o).indent = cfg.indent := by
  unfold applyArrayStyle
  split_ifs <;> rfl

theorem applyArrayStyle_indentType (cfg : Config) (o : SetupOptions) :
    (applyArrayStyle cfg o).indentType = cfg.indentType := by
  unfold applyArrayStyle
  split_ifs <;> rfl

theorem applyArrayStyle_mode (cfg : Config) (o : SetupOptions) :
    (applyArrayStyle cfg o).mode = cfg.mode := by
  unfold applyArrayStyle
  split_ifs <;> rfl

theorem applyMode_mode (cfg : Config) (o : SetupOptions) :
    (applyMode cfg o).mode =
      (if o.mode = some "merge" then Mode.merge
       else if o.mode = some "union" then Mode.union
       else cfg.mode) := by
  unfold applyMode
  split_ifs <;> rfl

theorem applyMode_indent (cfg : Config) (o : SetupOptions) :
    (applyMode cfg o).indent = cfg.indent := by
  unfold applyMode
  split_ifs <;> rfl

theorem applyMode_indentType (cfg : Config) (o : SetupOptions) :
    (applyMode cfg o).indentType = cfg.indentType := by
  unfold applyMode
  split_ifs <;> rfl

theorem applyMode_arrayStyle (cfg : Config) (o : SetupOptions) :
    (applyMode cfg o).arrayStyle = cfg.arrayStyle := by
  unfold applyMode
  split_ifs <;> rfl

theorem recomputeIndent_computedIndent (cfg : Config) :
    (recomputeIndent cfg).computedIndent =
      strRepeat (if cfg.indentType = IndentType.tab then "\t" else " ") cfg.indent.toNat := by
  unfold recomputeIndent
  split_ifs <;> rfl

theorem recomputeIndent_indent (cfg : Config) : (recomputeIndent cfg).indent = cfg.indent := by
  unfold recomputeIndent
  split_ifs <;> rfl

theorem recomputeIndent_indentType (cfg : Config) :
    (recomputeIndent cfg).indentType = cfg.indentType := by
  unfold recomputeIndent
  split_ifs <;> rfl

theorem recomputeIndent_arrayStyle (cfg : Config) :
    (recomputeIndent cfg).arrayStyle = cfg.arrayStyle := by
  unfold recomputeIndent
  split_ifs <;> rfl

theorem recomputeIndent_mode (cfg : Config) : (recomputeIndent cfg).mode = cfg.mode := by
  unfold recomputeIndent
  split_ifs <;> rfl

/-- C7: setupTypeDetective applies each recognized option field exactly when
its validation succeeds and otherwise keeps the prior value of that field: the
indent is taken iff the supplied number is positive, the indent kind iff the
supplied string is space or tab, the array style iff it is postfix or generic,
the mode iff it is merge or union; the call is a total function and reports no
error. -/
theorem c7_setup_validation (cfg : Config) (o : SetupOptions) :
    (setupTypeDetective cfg o).indent =
        (match o.indent with
         | some n => if 0 < n then n else cfg.indent
         | none => cfg.indent) ∧
    (setupTypeDetective cfg o).indentType =
        (if o.indentType = some "space" then IndentType.space
         else if o.indentType = some "tab" then IndentType.tab
         else cfg.indentType) ∧
    (setupTypeDetective cfg o).arrayStyle =
        (if o.arrayStyle = some "generic" then ArrayStyle.generic
         else if o.arrayStyle = some "postfix" then ArrayStyle.suffix
         else cfg.arrayStyle) ∧
    (setupTypeDetective cfg o).mode =
        (if o.mode = some "merge" then Mode.merge
         else if o.mode = some "union" then Mode.union
         else cfg.mode) := by
  refine ⟨?_, ?_, ?_, ?_⟩ <;>
    simp [setupTypeDetective, recomputeIndent_indent, recomputeIndent_indentType,
      recomputeIndent_arrayStyle, recomputeIndent_mode, applyMode_indent, applyMode_indentType,
      applyMode_arrayStyle, applyMode_mode, applyArrayStyle_indent, applyArrayStyle_indentType,
      applyArrayStyle_arrayStyle, applyArrayStyle_mode, applyIndentType_indent,
      applyIndentType_indentType, applyIndentType_arrayStyle, applyIndentType_mode,
      applyIndent_indent, applyIndent_indentType, applyIndent_arrayStyle, applyIndent_mode]

/-- C8: after every setupTypeDetective call the stored computed indent string
equals the stored indent count repetitions of a single tab character when the
stored indent kind is tab, and of a single space character otherwise. -/
theorem c8_computed_indent_invariant (cfg : Config) (o : SetupOptions) :
    (setupTypeDetective cfg o).computedIndent =
      strRepeat (if (setupTypeDetective cfg o).indentType = IndentType.tab then "\t" else " ")
        (setupTypeDetective cfg o).indent.toNat := by
  simp [setupTypeDetective, recomputeIndent_computedIndent, recomputeIndent_indent,
    recomputeIndent_indentType]

/-- C9: the inference engine is total: the well-founded embedding is defined
on every value, the produced text is never the empty string in any
configuration, at any indentation level and in either mode, and a value of an
unrecognized kind yields the token unknown. -/
theorem c9_total_never_empty_unknown_fallback :
    (∀ (cfg : Config) (v : Value) (lvl : Nat) (mode : Mode), inferType cfg v lvl mode ≠ "") ∧
    (∀ (cfg : Config) (lvl : Nat) (mode : Mode), inferType cfg .vother lvl mode = "unknown") := by
  constructor
  · intro cfg v lvl mode
    cases v <;> rw [inferType.eq_def] <;> dsimp only <;> (repeat' split) <;>
      (first
        | decide
        | exact append_ne_empty_right _ _ (by decide))
  · intro cfg lvl mode
    rw [inferType.eq_def]

/-- C9 witness: the never-empty clause applied at the null value in the
initial configuration. -/
theorem c9_total_never_empty_unknown_fallback_witness :
    inferType typeDetectiveConfigInit .vnull 0 .merge ≠ "" :=
  c9_total_never_empty_unknown_fallback.1 typeDetectiveConfigInit .vnull 0 .merge

/-- C10: an inferType call depends only on its explicit arguments: the
state-threaded call returns the configuration unchanged (the source writes the
global configuration only inside setupTypeDetective) and its text component is
the pure function inferType of the same arguments, so two calls with equal
value, indentation level, mode and configuration produce identical text. -/
theorem c10_pure_deterministic (cfg : Config) (v : Value) (lvl : Nat) (mode : Mode) :
    (inferTypeCall cfg v lvl mode).2 = cfg ∧
    (inferTypeCall cfg v lvl mode).1 = inferType cfg v lvl mode :=
  ⟨rfl, rfl⟩

end TypeDetective
